import Mathlib

/-!
Verification of the typedregexp compile/match core.

The development shallowly embeds the package: a Go struct whose fields are
all strings is modelled as a list of field values together with a nominal
struct type (a name plus the ordered field names).  The external regular
expression engine and the external template engine are out of scope for the
package itself, so they are modelled abstractly: a compiled regexp is a
record holding the reported group names (SubexpNames) and the full ordered
stream of matches for each input (matchesOf); FindStringSubmatch is the head
of that stream and FindAllStringSubmatch with bound n is its first n
entries, which is what the Go regexp package documents for n greater than or
equal to zero.  Templates are modelled structurally as lists of literal
chunks and field references, matching what text/template does on a struct:
a reference to a missing field is an execution error.

All functions are translated clause by clause from typedregexp.go.
-/

namespace Typedregexp

/-- A nominal Go struct type whose fields are all strings: its declared name
and its field names in declaration order.  Equality of Go types is nominal,
which this record models by comparing the whole record. -/
structure GoStructType where
  name : String
  fieldNames : List String
deriving DecidableEq

/-- A value of a Go struct type with string fields: the type tag carried by
the value at runtime plus the field values in declaration order. -/
structure StructVal where
  ty : GoStructType
  vals : List String
deriving DecidableEq

/-- Model of a compiled regexp from the external engine: the group names it
reports (index 0 is the whole match, whose name is the empty string) and,
for each input, the full ordered list of matches, each match being the list
of submatch strings (index 0 the whole match; an empty string marks a group
that did not participate). -/
structure GoRegexp where
  subexpNames : List String
  matchesOf : String → List (List String)

/-- FindStringSubmatch: the submatches of the leftmost match, or the empty
list when there is no match (Go returns nil). -/
def GoRegexp.findStringSubmatch (re : GoRegexp) (s : String) : List String :=
  match re.matchesOf s with
  | [] => []
  | m :: _ => m

/-- FindAllStringSubmatch with a nonnegative bound n: the first n matches in
input order (Go documents at most n matches for n greater than or equal to
zero). -/
def GoRegexp.findAllStringSubmatch (re : GoRegexp) (s : String) (n : Nat) :
    List (List String) :=
  (re.matchesOf s).take n

/-- The external regexp compiler: none models a parse error. -/
structure RegexEngine where
  compile : String → Option GoRegexp

/-- A template, modelled structurally: text/template source split into
literal chunks and field references. -/
inductive TemplateItem where
  | lit (s : String)
  | ref (field : String)
deriving DecidableEq

/-- Errors of the compile pipeline, tagged with the offending field where
the Go code formats it into the message. -/
inductive CompileError where
  | emptyField (field : String)
  | invalidFieldPattern (field : String)
  | templateError
  | compositeParseError
deriving DecidableEq

/-- Go map lookup in a map from field name to index list: a missing key
yields the empty list, as ranging over a nil slice does in Go. -/
def mapGet (m : List (String × List Nat)) (k : String) : List Nat :=
  match m with
  | [] => []
  | (k', v) :: rest => if k' = k then v else mapGet rest k

/-- Go map append: indices[fieldName] = append(indices[fieldName], i). -/
def mapAppend (m : List (String × List Nat)) (k : String) (i : Nat) :
    List (String × List Nat) :=
  match m with
  | [] => [(k, [i])]
  | (k', v) :: rest =>
    if k' = k then (k', v ++ [i]) :: rest else (k', v) :: mapAppend rest k i

/-- The wrapped form of one field: the sub-pattern inside a named capture
group, as produced by fmt.Sprintf in wrapFieldsInCaptureGroups. -/
def wrapPat (name pat : String) : String :=
  "(?P<" ++ name ++ ">" ++ pat ++ ")"

/-- wrapFieldsInCaptureGroups, on the (fieldName, subPattern) pairs of the
captureGroups struct in declaration order.  In order per field: reject an
empty sub-pattern, then validate the sub-pattern with the external compiler,
then wrap it in a named capture group.  The first offending field aborts the
whole loop.  (The kind and setability checks of the Go code cannot fail in
this model, where every field is a string by construction.) -/
def wrapFieldsInCaptureGroups (e : RegexEngine) :
    List (String × String) → Except CompileError (List (String × String))
  | [] => .ok []
  | (name, pat) :: rest =>
    if pat = "" then .error (.emptyField name)
    else
      match e.compile pat with
      | none => .error (.invalidFieldPattern name)
      | some _ =>
        match wrapFieldsInCaptureGroups e rest with
        | .error err => .error err
        | .ok wrapped => .ok ((name, wrapPat name pat) :: wrapped)

/-- fillPatternTemplate: execute the template against the wrapped struct,
concatenating literal chunks and wrapped field patterns.  A reference to a
field that is not in the struct is an execution error of text/template. -/
def fillPatternTemplate :
    List TemplateItem → List (String × String) → Except CompileError String
  | [], _ => .ok ""
  | .lit s :: rest, groups =>
    match fillPatternTemplate rest groups with
    | .error err => .error err
    | .ok tail => .ok (s ++ tail)
  | .ref f :: rest, groups =>
    match (groups.find? (fun p => p.1 == f)) with
    | none => .error .templateError
    | some p =>
      match fillPatternTemplate rest groups with
      | .error err => .error err
      | .ok tail => .ok (p.2 ++ tail)

/-- One step of the index-building loop of Compile: for position p.1 with
group name p.2, the inner loop scans fieldNames and, at the first field
whose name equals the group name, appends the position to that field and
breaks; if no field matches, the position is ignored. -/
def scanStep (fieldNames : List String) (indices : List (String × List Nat))
    (p : Nat × String) : List (String × List Nat) :=
  match fieldNames.find? (fun fieldName => fieldName == p.2) with
  | some fieldName => mapAppend indices fieldName p.1
  | none => indices

/-- The index-building loop of Compile: for i, submatch := range
re.SubexpNames, scan fieldNames and append i to the first field whose name
equals submatch. -/
def buildIndices (subexpNames fieldNames : List String) :
    List (String × List Nat) :=
  subexpNames.enum.foldl (scanStep fieldNames) []

/-- The compiled matcher: the compiled composite pattern, the nominal type
of the captureGroups struct (used for the shape checks of Find and
FindAll), the wrapped per-field patterns, and the map from field name to
all its submatch indices. -/
structure TypedRegexp where
  pattern : GoRegexp
  captureGroupsTy : GoStructType
  captureGroups : List String
  submatchIndicesByFieldName : List (String × List Nat)

/-- Compile: wrap the fields in capture groups, fill the template, compile
the composite pattern, and build the field-to-indices map. -/
def Compile (e : RegexEngine) (patternTemplate : List TemplateItem)
    (captureGroups : StructVal) : Except CompileError TypedRegexp :=
  match wrapFieldsInCaptureGroups e
      (captureGroups.ty.fieldNames.zip captureGroups.vals) with
  | .error err => .error err
  | .ok wrappedFields =>
    match fillPatternTemplate patternTemplate wrappedFields with
    | .error err => .error err
    | .ok pattern =>
      match e.compile pattern with
      | none => .error .compositeParseError
      | some re =>
        .ok { pattern := re
              captureGroupsTy := captureGroups.ty
              captureGroups := wrappedFields.map (fun p => p.2)
              submatchIndicesByFieldName :=
                buildIndices re.subexpNames captureGroups.ty.fieldNames }

/-- The loop body of findFirstNonEmptySubmatchForField: walk the index list
in order; an index at or past the length of the submatch list returns the
empty string at once; an in-bounds non-empty submatch is returned; an
in-bounds empty submatch moves on to the next index. -/
def firstNonEmptyAt : List Nat → List String → String
  | [], _ => ""
  | i :: rest, submatches =>
    if submatches.length ≤ i then ""
    else
      let value := submatches.getD i ""
      if value ≠ "" then value else firstNonEmptyAt rest submatches

/-- findFirstNonEmptySubmatchForField: look the field up in the index map
and walk its index list. -/
def findFirstNonEmptySubmatchForField (r : TypedRegexp) (field : String)
    (submatches : List String) : String :=
  firstNonEmptyAt (mapGet r.submatchIndicesByFieldName field) submatches

/-- assignSubmatchesToStruct: for every field of the captureGroups struct
type, in declaration order, SetString the resolved value.  Note that the
Go loop sets every field unconditionally, so the result does not depend on
the prior field values of the destination struct. -/
def assignSubmatchesToStruct (r : TypedRegexp) (submatches : List String)
    (_vals : List String) : List String :=
  r.captureGroupsTy.fieldNames.map
    (fun name => findFirstNonEmptySubmatchForField r name submatches)

/-- Find: values must be a pointer to the struct type passed to Compile,
checked by nominal type identity; a mismatch panics, modelled as none.
Otherwise run one match; no match returns false with the struct untouched;
a match assigns the submatches into the struct and returns true. -/
def TypedRegexp.Find (r : TypedRegexp) (s : String) (isPtr : Bool)
    (values : StructVal) : Option (Bool × StructVal) :=
  if isPtr = true ∧ values.ty = r.captureGroupsTy then
    let submatches := r.pattern.findStringSubmatch s
    if submatches.length = 0 then some (false, values)
    else some (true, ⟨values.ty, assignSubmatchesToStruct r submatches values.vals⟩)
  else none

/-- A valuesSlice argument of FindAll: a slice of structs or a slice of
pointers to structs, with its element struct type; a nil pointer is none. -/
inductive SliceVal where
  | ofStructs (ty : GoStructType) (elems : List (List String))
  | ofPtrs (ty : GoStructType) (elems : List (Option (List String)))
deriving DecidableEq

/-- The element struct type of a valuesSlice. -/
def SliceVal.elemTy : SliceVal → GoStructType
  | .ofStructs ty _ => ty
  | .ofPtrs ty _ => ty

/-- The length of a valuesSlice. -/
def SliceVal.len : SliceVal → Nat
  | .ofStructs _ es => es.length
  | .ofPtrs _ es => es.length

/-- The loop of FindAll over a slice of structs: match number k is assigned
into slot number k. -/
def fillStructs (r : TypedRegexp) :
    List (List String) → List (List String) → List (List String)
  | [], es => es
  | _ :: _, [] => []
  | subs :: all, e :: es =>
    assignSubmatchesToStruct r subs e :: fillStructs r all es

/-- The loop of FindAll over a slice of pointers: match number k is assigned
through slot number k, except that a nil slot is skipped with continue, the
match at that position being dropped. -/
def fillPtrs (r : TypedRegexp) :
    List (List String) → List (Option (List String)) → List (Option (List String))
  | [], es => es
  | _ :: _, [] => []
  | _ :: all, none :: es => none :: fillPtrs r all es
  | subs :: all, some e :: es =>
    some (assignSubmatchesToStruct r subs e) :: fillPtrs r all es

/-- FindAll: valuesSlice must be a slice of the struct type passed to
Compile or of pointers to it, checked by nominal type identity; a mismatch
panics, modelled as none.  An empty slice returns zero at once.  Otherwise
ask the engine for at most len matches and assign match number k into slot
number k, skipping nil pointer slots. -/
def TypedRegexp.FindAll (r : TypedRegexp) (s : String) (vs : SliceVal) :
    Option (Nat × SliceVal) :=
  if vs.elemTy = r.captureGroupsTy then
    if vs.len = 0 then some (0, vs)
    else
      let allSubmatches := r.pattern.findAllStringSubmatch s vs.len
      match vs with
      | .ofStructs ty es =>
        some (allSubmatches.length, .ofStructs ty (fillStructs r allSubmatches es))
      | .ofPtrs ty es =>
        some (allSubmatches.length, .ofPtrs ty (fillPtrs r allSubmatches es))
  else none

/-- The ascending list of positions, counted from k, at which f occurs in a
list of group names.  This is the specification value of the index lists
that buildIndices computes. -/
def posFrom (f : String) : Nat → List String → List Nat
  | _, [] => []
  | k, s :: rest => if s = f then k :: posFrom f (k + 1) rest else posFrom f (k + 1) rest

/-! ### Concrete fixtures

Concrete engines and matchers used to evaluate the model on the inputs of
the test suite and the spec scenarios.  Each engine answers the external
regexp compiler only on the strings the scenario actually compiles, and
each compiled regexp reports the group names and matches that the Go engine
produces for the corresponding pattern. -/

/-- A compiled regexp for a pattern with no groups and no matches, used as
the standalone-validation result for the individual field sub-patterns. -/
def dummyRe : GoRegexp := ⟨[""], fun _ => []⟩

/-- The struct type with fields Name and Age. -/
def tyNA : GoStructType := ⟨"Values", ["Name", "Age"]⟩

/-- The struct type with the single field Name. -/
def tyName : GoStructType := ⟨"CaptureGroups", ["Name"]⟩

/-- Engine behaviour of the composite of template .Name( .Age)? with Name
bound to word characters and Age to digits: group names of
(?P<Name>w+)( (?P<Age>d+))? and the single match on the input foo, where
the optional group does not participate. -/
def reC1 : GoRegexp :=
  ⟨["", "Name", "", "Age"], fun s => if s = "foo" then [["foo", "foo", "", ""]] else []⟩

/-- Engine for the C1 scenario. -/
def engC1 : RegexEngine :=
  ⟨fun p =>
    if p = "\\w+" then some dummyRe
    else if p = "\\d+" then some dummyRe
    else if p = "(?P<Name>\\w+)( (?P<Age>\\d+))?" then some reC1
    else none⟩

/-- The template of the C1 scenario: a Name reference followed by an
optional group holding an Age reference. -/
def tmplC1 : List TemplateItem := [.ref "Name", .lit "( ", .ref "Age", .lit ")?"]

/-- The captureGroups struct of the C1 scenario. -/
def cgC1 : StructVal := ⟨tyNA, ["\\w+", "\\d+"]⟩

/-- Engine behaviour of the composite of the two-branch template: group
names of the pattern with Name in both alternation branches, and the single
match on an input that only the second branch matches. -/
def reAB : GoRegexp :=
  ⟨["", "Name", "Name"], fun s => if s = "b foo" then [["b foo", "", "foo"]] else []⟩

/-- Engine for the two-branch scenario. -/
def engAB : RegexEngine :=
  ⟨fun p =>
    if p = "\\w+" then some dummyRe
    else if p = "a (?P<Name>\\w+)|b (?P<Name>\\w+)" then some reAB
    else none⟩

/-- The two-branch template. -/
def tmplAB : List TemplateItem := [.lit "a ", .ref "Name", .lit "|b ", .ref "Name"]

/-- The captureGroups struct of the two-branch scenario. -/
def cgAB : StructVal := ⟨tyName, ["\\w+"]⟩

/-- The matcher Compile produces in the two-branch scenario. -/
def reqAB : TypedRegexp := ⟨reAB, tyName, ["(?P<Name>\\w+)"], [("Name", [1, 2])]⟩

/-- Engine behaviour for a pattern whose only field group sits inside an
optional group, on an input where the whole pattern matches but the group
does not participate, so every field resolves to nothing. -/
def reC3 : GoRegexp :=
  ⟨["", "", "Name"], fun s => if s = "a" then [["a", "", ""]] else []⟩

/-- The matcher of the all-fields-empty scenario. -/
def reqC3 : TypedRegexp := ⟨reC3, tyName, ["(?P<Name>\\w+)"], [("Name", [2])]⟩

/-- Engine behaviour of the two-branch pattern on an input with three
matches, as in the FindAll test. -/
def reMulti : GoRegexp :=
  ⟨["", "Name", "Name"],
    fun s =>
      if s = "a foo b bar a baz extra" then
        [["a foo", "foo", ""], ["b bar", "", "bar"], ["a baz", "baz", ""]]
      else []⟩

/-- The matcher of the multi-match scenario. -/
def reqMulti : TypedRegexp := ⟨reMulti, tyName, ["(?P<Name>\\w+)"], [("Name", [1, 2])]⟩

/-- A two-field struct type used in the compile-error scenarios. -/
def tyAB2 : GoStructType := ⟨"S", ["A", "B"]⟩

/-- A schema whose second field has an empty sub-pattern. -/
def cgEmptyB : StructVal := ⟨tyAB2, ["x", ""]⟩

/-- A schema whose second field has a sub-pattern the engine rejects. -/
def cgInvalidB : StructVal := ⟨tyAB2, ["x", "("]⟩

/-- An engine that accepts only the sub-pattern x. -/
def engX : RegexEngine := ⟨fun p => if p = "x" then some dummyRe else none⟩

/-- A struct type whose field set differs from the Name schema. -/
def tyOtherFields : GoStructType := ⟨"InvalidFieldType", ["AgeInt"]⟩

/-- A struct type with the same field set as tyName but a different
declared name: structurally identical, nominally distinct. -/
def tyNameClone : GoStructType := ⟨"CaptureGroups2", ["Name"]⟩

/-! ### Lemmas about the association-list map operations -/

theorem mapGet_mapAppend_self (m : List (String × List Nat)) (k : String) (i : Nat) :
    mapGet (mapAppend m k i) k = mapGet m k ++ [i] := by
  induction m with
  | nil => simp [mapAppend, mapGet]
  | cons hd tl ih =>
    obtain ⟨k', v⟩ := hd
    by_cases h : k' = k <;> simp [mapAppend, mapGet, h, ih]

theorem mapGet_mapAppend_ne (m : List (String × List Nat)) (k : String) (i : Nat)
    (f : String) (h : f ≠ k) : mapGet (mapAppend m k i) f = mapGet m f := by
  have hk : ¬ k = f := fun hh => h hh.symm
  induction m with
  | nil => simp [mapAppend, mapGet, hk]
  | cons hd tl ih =>
    obtain ⟨k', v⟩ := hd
    by_cases hkk : k' = k
    · subst hkk
      simp [mapAppend, mapGet, hk]
    · by_cases hkf : k' = f
      · subst hkf
        simp [mapAppend, mapGet, hkk]
      · simp [mapAppend, mapGet, hkk, hkf, ih]

theorem find?_beq_eq {l : List String} {s y : String}
    (h : l.find? (fun x => x == s) = some y) : y = s := by
  have := List.find?_some h
  simpa using this

theorem find?_beq_isSome {l : List String} {s : String} :
    (l.find? (fun x => x == s)).isSome = true ↔ s ∈ l := by
  rw [List.find?_isSome]
  constructor
  · rintro ⟨x, hx, hxs⟩
    simp at hxs
    exact hxs ▸ hx
  · intro hs
    exact ⟨s, hs, by simp⟩

theorem mapGet_scanStep (fns : List String) (acc : List (String × List Nat))
    (k : Nat) (s f : String) :
    mapGet (scanStep fns acc (k, s)) f =
      if s = f ∧ f ∈ fns then mapGet acc f ++ [k] else mapGet acc f := by
  unfold scanStep
  cases hfind : fns.find? (fun fieldName => fieldName == s) with
  | none =>
    have hns : ¬ s ∈ fns := by
      rw [← find?_beq_isSome]
      simp [hfind]
    by_cases hsf : s = f
    · subst hsf
      simp [hns]
    · simp [hsf]
  | some y =>
    have hy : y = s := find?_beq_eq hfind
    subst hy
    have hs : y ∈ fns := by
      rw [← find?_beq_isSome]
      simp [hfind]
    by_cases hsf : y = f
    · subst hsf
      simp [hs, mapGet_mapAppend_self]
    · rw [mapGet_mapAppend_ne _ _ _ _ (fun hh => hsf hh.symm)]
      simp [hsf]

theorem mapGet_foldl_scanStep (fns : List String) (f : String) :
    ∀ (l : List String) (k : Nat) (acc : List (String × List Nat)),
      mapGet ((l.enumFrom k).foldl (scanStep fns) acc) f =
        mapGet acc f ++ (if f ∈ fns then posFrom f k l else []) := by
  intro l
  induction l with
  | nil => intro k acc; simp [List.enumFrom, posFrom]
  | cons s rest ih =>
    intro k acc
    simp only [List.enumFrom, List.foldl]
    rw [ih (k + 1) (scanStep fns acc (k, s)), mapGet_scanStep]
    by_cases hsf : s = f
    · by_cases hmem : f ∈ fns
      · simp [posFrom, hsf, hmem, List.append_assoc]
      · simp [posFrom, hsf, hmem]
    · simp [posFrom, hsf]

theorem mapGet_buildIndices (subs fns : List String) (f : String) :
    mapGet (buildIndices subs fns) f = if f ∈ fns then posFrom f 0 subs else [] := by
  unfold buildIndices
  have henum : subs.enum = subs.enumFrom 0 := rfl
  rw [henum, mapGet_foldl_scanStep]
  simp [mapGet]

/-! ### Lemmas about posFrom -/

theorem le_of_mem_posFrom (f : String) :
    ∀ (l : List String) (k j : Nat), j ∈ posFrom f k l → k ≤ j := by
  intro l
  induction l with
  | nil => intro k j hj; simp [posFrom] at hj
  | cons s rest ih =>
    intro k j hj
    by_cases h : s = f
    · simp only [posFrom, if_pos h] at hj
      rcases List.mem_cons.mp hj with hj | hj
      · exact hj ▸ le_refl k
      · exact le_trans (Nat.le_succ k) (ih (k + 1) j hj)
    · simp only [posFrom, if_neg h] at hj
      exact le_trans (Nat.le_succ k) (ih (k + 1) j hj)

theorem chain'_posFrom (f : String) :
    ∀ (l : List String) (k : Nat), List.Chain' (· < ·) (posFrom f k l) := by
  intro l
  induction l with
  | nil => intro k; simp [posFrom]
  | cons s rest ih =>
    intro k
    by_cases h : s = f
    · simp only [posFrom, if_pos h]
      refine List.chain'_cons'.mpr ⟨?_, ih (k + 1)⟩
      intro b hb
      have hmem : b ∈ posFrom f (k + 1) rest := List.mem_of_mem_head? hb
      exact lt_of_lt_of_le (Nat.lt_succ_self k) (le_of_mem_posFrom f rest (k + 1) b hmem)
    · simp only [posFrom, if_neg h]
      exact ih (k + 1)

theorem posFrom_ne_nil_of_mem (f : String) :
    ∀ (l : List String) (k : Nat), f ∈ l → posFrom f k l ≠ [] := by
  intro l
  induction l with
  | nil => intro k h; simp at h
  | cons s rest ih =>
    intro k h
    by_cases hs : s = f
    · simp [posFrom, hs]
    · have : f ∈ rest := by
        rcases List.mem_cons.mp h with h | h
        · exact absurd h.symm hs
        · exact h
      simp only [posFrom, if_neg hs]
      exact ih (k + 1) this

/-! ### Lemmas about the submatch resolver walk -/

theorem firstNonEmptyAt_oob_head {i : Nat} {rest : List Nat} {subs : List String}
    (h : subs.length ≤ i) : firstNonEmptyAt (i :: rest) subs = "" := by
  simp [firstNonEmptyAt, h]

theorem firstNonEmptyAt_erase (subs : List String) :
    ∀ (idxs : List Nat), List.Chain' (· < ·) idxs →
      ∀ i ∈ idxs, subs.length ≤ i →
        firstNonEmptyAt idxs subs = firstNonEmptyAt (idxs.erase i) subs := by
  intro idxs
  induction idxs with
  | nil => intro _ i hi; simp at hi
  | cons j rest ih =>
    intro hchain i hi hoob
    by_cases hji : j = i
    · subst hji
      rw [List.erase_cons_head, firstNonEmptyAt_oob_head hoob]
      cases rest with
      | nil => simp [firstNonEmptyAt]
      | cons j2 rest2 =>
        have hj2 : j < j2 := (List.chain'_cons.mp hchain).1
        have hle : subs.length ≤ j2 := le_trans hoob (le_of_lt hj2)
        rw [firstNonEmptyAt_oob_head hle]
    · have hi' : i ∈ rest := by
        rcases List.mem_cons.mp hi with hh | hh
        · exact absurd hh.symm hji
        · exact hh
      have hne : ¬ (j == i) = true := by simp [hji]
      rw [List.erase_cons_tail hne]
      by_cases hlen : subs.length ≤ j
      · rw [firstNonEmptyAt_oob_head hlen, firstNonEmptyAt_oob_head hlen]
      · have htail : List.Chain' (· < ·) rest := hchain.tail
        simp only [firstNonEmptyAt, if_neg hlen]
        by_cases hv : subs[j]?.getD "" = ""
        · simp [hv, ih htail i hi' hoob]
        · simp [hv]

/-! ### Extraction lemmas for Compile -/

theorem compile_fields (e : RegexEngine) (tmpl : List TemplateItem)
    (cg : StructVal) (r : TypedRegexp) (h : Compile e tmpl cg = .ok r) :
    r.captureGroupsTy = cg.ty ∧
      r.submatchIndicesByFieldName =
        buildIndices r.pattern.subexpNames cg.ty.fieldNames := by
  unfold Compile at h
  split at h
  · exact absurd h (by simp)
  · split at h
    · exact absurd h (by simp)
    · split at h
      · exact absurd h (by simp)
      · rename_i re hre
        have hr := (Except.ok.injEq _ _ ▸ h :
          ({ pattern := re
             captureGroupsTy := cg.ty
             captureGroups := _
             submatchIndicesByFieldName :=
               buildIndices re.subexpNames cg.ty.fieldNames } : TypedRegexp) = r)
        subst hr
        exact ⟨rfl, rfl⟩

/-! ### Lemmas about the FindAll fill loops -/

theorem fillStructs_eq (r : TypedRegexp) :
    ∀ (all : List (List String)) (es : List (List String)),
      fillStructs r all es =
        List.zipWith (fun subs e => assignSubmatchesToStruct r subs e) all es ++
          es.drop all.length := by
  intro all
  induction all with
  | nil => intro es; simp [fillStructs]
  | cons subs rest ih =>
    intro es
    cases es with
    | nil => simp [fillStructs]
    | cons e es' => simp [fillStructs, ih es']

theorem fillPtrs_eq (r : TypedRegexp) :
    ∀ (all : List (List String)) (slots : List (Option (List String))),
      fillPtrs r all slots =
        List.zipWith (fun subs slot => slot.map (assignSubmatchesToStruct r subs))
            all slots ++
          slots.drop all.length := by
  intro all
  induction all with
  | nil => intro slots; simp [fillPtrs]
  | cons subs rest ih =>
    intro slots
    cases slots with
    | nil => simp [fillPtrs]
    | cons slot slots' =>
      cases slot with
      | none => simp [fillPtrs, ih slots']
      | some e => simp [fillPtrs, ih slots']

theorem fillPtrs_get?_none (r : TypedRegexp) :
    ∀ (all : List (List String)) (slots : List (Option (List String))) (j : Nat),
      slots.get? j = some none → (fillPtrs r all slots).get? j = some none := by
  intro all
  induction all with
  | nil => intro slots j h; simpa [fillPtrs] using h
  | cons subs rest ih =>
    intro slots j h
    cases slots with
    | nil => simp at h
    | cons slot slots' =>
      cases slot with
      | none =>
        cases j with
        | zero => simp [fillPtrs]
        | succ j' =>
          simp only [List.get?] at h
          simpa [fillPtrs] using ih slots' j' h
      | some e =>
        cases j with
        | zero => simp at h
        | succ j' =>
          simp only [List.get?] at h
          simpa [fillPtrs] using ih slots' j' h

theorem fillPtrs_get?_some (r : TypedRegexp) :
    ∀ (all : List (List String)) (slots : List (Option (List String)))
      (j : Nat) (subs : List String) (v : List String),
      all.get? j = some subs → slots.get? j = some (some v) →
        (fillPtrs r all slots).get? j =
          some (some (assignSubmatchesToStruct r subs v)) := by
  intro all
  induction all with
  | nil => intro slots j subs v h _; simp at h
  | cons s0 rest ih =>
    intro slots j subs v hall hslot
    cases slots with
    | nil => simp at hslot
    | cons slot slots' =>
      cases slot with
      | none =>
        cases j with
        | zero => simp at hslot
        | succ j' =>
          simp only [List.get?] at hall hslot
          simpa [fillPtrs] using ih slots' j' subs v hall hslot
      | some e =>
        cases j with
        | zero =>
          simp at hall hslot
          subst hall
          subst hslot
          simp [fillPtrs]
        | succ j' =>
          simp only [List.get?] at hall hslot
          simpa [fillPtrs] using ih slots' j' subs v hall hslot

/-! ### Lemmas about the compile pipeline -/

theorem wrapFields_ok (e : RegexEngine) :
    ∀ (pairs : List (String × String)),
      (∀ p ∈ pairs, p.2 ≠ "") → (∀ p ∈ pairs, (e.compile p.2).isSome = true) →
      wrapFieldsInCaptureGroups e pairs =
        .ok (pairs.map (fun p => (p.1, wrapPat p.1 p.2))) := by
  intro pairs
  induction pairs with
  | nil => intro _ _; rfl
  | cons hd tl ih =>
    intro hne hvalid
    obtain ⟨name, pat⟩ := hd
    have hpat : ¬ pat = "" := hne (name, pat) (by simp)
    have hval : (e.compile pat).isSome = true := hvalid (name, pat) (by simp)
    obtain ⟨re, hre⟩ := Option.isSome_iff_exists.mp hval
    rw [show wrapFieldsInCaptureGroups e ((name, pat) :: tl) =
        (if pat = "" then .error (.emptyField name)
         else
           match e.compile pat with
           | none => .error (.invalidFieldPattern name)
           | some _ =>
             match wrapFieldsInCaptureGroups e tl with
             | .error err => .error err
             | .ok wrapped => .ok ((name, wrapPat name pat) :: wrapped)) from rfl]
    rw [if_neg hpat, hre,
      ih (fun p hp => hne p (List.mem_cons_of_mem _ hp))
        (fun p hp => hvalid p (List.mem_cons_of_mem _ hp))]
    simp

theorem fillPatternTemplate_ok :
    ∀ (tmpl : List TemplateItem) (groups : List (String × String)),
      (∀ f, TemplateItem.ref f ∈ tmpl → ∃ p ∈ groups, p.1 = f) →
      ∃ pat, fillPatternTemplate tmpl groups = .ok pat := by
  intro tmpl groups
  induction tmpl with
  | nil => intro _; exact ⟨"", rfl⟩
  | cons item rest ih =>
    intro h
    obtain ⟨tail, htail⟩ := ih (fun f hf => h f (List.mem_cons_of_mem _ hf))
    cases item with
    | lit s => exact ⟨s ++ tail, by simp [fillPatternTemplate, htail]⟩
    | ref f =>
      have hsome : (groups.find? (fun q => q.1 == f)).isSome = true := by
        rw [List.find?_isSome]
        obtain ⟨p, hp, hpf⟩ := h f (List.mem_cons_self _ _)
        exact ⟨p, hp, by simp [hpf]⟩
      obtain ⟨q, hq⟩ := Option.isSome_iff_exists.mp hsome
      exact ⟨q.2 ++ tail, by simp [fillPatternTemplate, hq, htail]⟩

theorem wrapFields_error_at (e : RegexEngine) :
    ∀ (pre : List (String × String)) (name pat : String)
      (post : List (String × String)),
      (∀ p ∈ pre, p.2 ≠ "" ∧ (e.compile p.2).isSome = true) →
      ((pat = "" →
          wrapFieldsInCaptureGroups e (pre ++ (name, pat) :: post) =
            .error (.emptyField name)) ∧
        (e.compile pat = none → ¬ pat = "" →
          wrapFieldsInCaptureGroups e (pre ++ (name, pat) :: post) =
            .error (.invalidFieldPattern name))) := by
  intro pre
  induction pre with
  | nil =>
    intro name pat post _
    constructor
    · intro hp
      simp [wrapFieldsInCaptureGroups, hp]
    · intro hnone hp
      simp [wrapFieldsInCaptureGroups, hp, hnone]
  | cons hd tl ih =>
    intro name pat post hpre
    obtain ⟨n0, p0⟩ := hd
    have h0 := hpre (n0, p0) (List.mem_cons_self _ _)
    obtain ⟨re0, hre0⟩ := Option.isSome_iff_exists.mp h0.2
    have htl := fun p hp => hpre p (List.mem_cons_of_mem _ hp)
    constructor
    · intro hp
      have := (ih name pat post htl).1 hp
      simp [wrapFieldsInCaptureGroups, h0.1, hre0, this]
    · intro hnone hp
      have := (ih name pat post htl).2 hnone hp
      simp [wrapFieldsInCaptureGroups, h0.1, hre0, this]

/-- Sanity check: the two-branch scenario compiles to the literal matcher
reqAB, linking the concrete fixtures to the Compile pipeline. -/
theorem compileAB_ok : Compile engAB tmplAB cgAB = .ok reqAB := rfl

/-! ### Claim theorems -/

/-- C1: the claim says that after Find and FindAll a field with no present
non-empty submatch is left untouched, retaining a caller pre-set value.
The code does the opposite: assignSubmatchesToStruct SetStrings every field
unconditionally, so such a field is overwritten with the empty string.
This theorem evaluates the model at the failing input: the matcher of
template .Name( .Age)?, input foo (which matches, with the optional Age
group not participating), and an output struct pre-populated with Age set
to -1; after Find the Age field holds the empty string, not -1. -/
theorem find_overwrites_unmatched_field_with_empty :
    (Compile engC1 tmplC1 cgC1).map
        (fun r => r.Find "foo" true ⟨tyNA, ["", "-1"]⟩) =
      .ok (some (true, ⟨tyNA, ["foo", ""]⟩)) := rfl

/-- C3: Find returns false and leaves the output untouched when the
composite pattern does not match the input, and returns true whenever the
pattern matches, with no condition on the resolved fields: a match whose
fields all resolve to nothing still counts as found. -/
theorem find_no_match_false_untouched_and_match_true (r : TypedRegexp)
    (s : String) (values : StructVal) (hty : values.ty = r.captureGroupsTy) :
    (r.pattern.matchesOf s = [] → r.Find s true values = some (false, values)) ∧
    (∀ m ms, r.pattern.matchesOf s = m :: ms → m ≠ [] →
      ∃ out, r.Find s true values = some (true, out)) := by
  constructor
  · intro hnone
    simp [TypedRegexp.Find, hty, GoRegexp.findStringSubmatch, hnone]
  · intro m ms hm hne
    refine ⟨⟨values.ty, assignSubmatchesToStruct r m values.vals⟩, ?_⟩
    have hlen : ¬ m.length = 0 := fun h => hne (List.length_eq_zero.mp h)
    simp [TypedRegexp.Find, hty, GoRegexp.findStringSubmatch, hm, hlen]

/-- Witness for C3 at the all-fields-empty matcher: the input zzz does not
match and the pre-populated struct comes back untouched with found false;
the input a matches with the only field group not participating, and found
is still true. -/
theorem find_no_match_false_untouched_and_match_true_witness :
    (reqC3.pattern.matchesOf "zzz" = [] ∧
      reqC3.Find "zzz" true ⟨tyName, ["Jane"]⟩ = some (false, ⟨tyName, ["Jane"]⟩)) ∧
    (∃ out, reqC3.Find "a" true ⟨tyName, ["Jane"]⟩ = some (true, out)) :=
  ⟨⟨rfl,
    (find_no_match_false_untouched_and_match_true reqC3 "zzz" ⟨tyName, ["Jane"]⟩
      rfl).1 rfl⟩,
    (find_no_match_false_untouched_and_match_true reqC3 "a" ⟨tyName, ["Jane"]⟩
      rfl).2 ["a", "", ""] [] rfl (by decide)⟩

/-- C9: both Find and FindAll reject, before any matching, an output value
whose field set differs from the schema field set: a structural mismatch
implies a nominal type mismatch, and the nominal check panics, modelled as
none.  The conclusion holds for every matcher and every input, so no
matching work is ever consulted. -/
theorem find_findAll_reject_shape_mismatch (r : TypedRegexp) (s : String)
    (isPtr : Bool) (ty : GoStructType) (vals : List String)
    (elems : List (List String)) (slots : List (Option (List String)))
    (hshape : ty.fieldNames ≠ r.captureGroupsTy.fieldNames) :
    r.Find s isPtr ⟨ty, vals⟩ = none ∧
    r.FindAll s (.ofStructs ty elems) = none ∧
    r.FindAll s (.ofPtrs ty slots) = none := by
  have hty : ¬ ty = r.captureGroupsTy := fun h => hshape (by rw [h])
  refine ⟨?_, ?_, ?_⟩
  · simp [TypedRegexp.Find, hty]
  · simp [TypedRegexp.FindAll, SliceVal.elemTy, hty]
  · simp [TypedRegexp.FindAll, SliceVal.elemTy, hty]

/-- Witness for C9: a struct type with field AgeInt instead of Name is
rejected by the Name matcher on both entry points. -/
theorem find_findAll_reject_shape_mismatch_witness :
    reqAB.Find "b foo" true ⟨tyOtherFields, ["z"]⟩ = none ∧
    reqAB.FindAll "b foo" (.ofStructs tyOtherFields [["z"]]) = none ∧
    reqAB.FindAll "b foo" (.ofPtrs tyOtherFields [some ["z"]]) = none :=
  find_findAll_reject_shape_mismatch reqAB "b foo" true tyOtherFields ["z"]
    [["z"]] [some ["z"]] (by decide)

/-- C10: the match-time check is nominal type identity, not structural
comparison.  A struct type with exactly the schema field set but a
different declared name is rejected by Find and by both forms of FindAll;
a non-pointer argument of the right struct type is rejected by Find as
well; and the exact compiled type passed as a pointer is accepted. -/
theorem shape_check_is_nominal (r : TypedRegexp) (s : String)
    (ty : GoStructType) (vals : List String) (elems : List (List String))
    (slots : List (Option (List String)))
    (hne : ty ≠ r.captureGroupsTy)
    (hfields : ty.fieldNames = r.captureGroupsTy.fieldNames) :
    r.Find s true ⟨ty, vals⟩ = none ∧
    r.FindAll s (.ofStructs ty elems) = none ∧
    r.FindAll s (.ofPtrs ty slots) = none ∧
    r.Find s false ⟨r.captureGroupsTy, vals⟩ = none ∧
    (r.Find s true ⟨r.captureGroupsTy, vals⟩).isSome = true := by
  refine ⟨?_, ?_, ?_, ?_, ?_⟩
  · simp [TypedRegexp.Find, hne]
  · simp [TypedRegexp.FindAll, SliceVal.elemTy, hne]
  · simp [TypedRegexp.FindAll, SliceVal.elemTy, hne]
  · simp [TypedRegexp.Find]
  · rw [TypedRegexp.Find, if_pos ⟨rfl, rfl⟩]
    by_cases h : (r.pattern.findStringSubmatch s).length = 0 <;> simp [h]

/-- Witness for C10: the struct type CaptureGroups2, whose field set is
exactly that of CaptureGroups, is still rejected by the matcher compiled
for CaptureGroups, while the exact type is accepted. -/
theorem shape_check_is_nominal_witness :
    reqAB.Find "b foo" true ⟨tyNameClone, ["z"]⟩ = none ∧
    reqAB.FindAll "b foo" (.ofStructs tyNameClone [["z"]]) = none ∧
    reqAB.FindAll "b foo" (.ofPtrs tyNameClone [some ["z"]]) = none ∧
    reqAB.Find "b foo" false ⟨reqAB.captureGroupsTy, ["z"]⟩ = none ∧
    (reqAB.Find "b foo" true ⟨reqAB.captureGroupsTy, ["z"]⟩).isSome = true :=
  shape_check_is_nominal reqAB "b foo" tyNameClone ["z"] [["z"]] [some ["z"]]
    (by decide) (by decide)

/-- C2: when a field has the two capture-group indices of two alternation
branches, and the match participates only in the second branch (the first
submatch is present but empty, the second is non-empty), Find resolves the
field from the participating branch: the walk is left to right over the
ascending index list and the first present non-empty submatch wins, so the
field is set to that value, not left empty and not taken from the
non-participating branch. -/
theorem find_resolves_from_participating_branch (r : TypedRegexp) (s : String)
    (f : String) (j i1 i2 : Nat) (subs : List String) (rest : List (List String))
    (v : String) (values : StructVal)
    (hty : values.ty = r.captureGroupsTy)
    (hidx : mapGet r.submatchIndicesByFieldName f = [i1, i2])
    (hm : r.pattern.matchesOf s = subs :: rest)
    (h1 : subs[i1]? = some "")
    (h2 : subs[i2]? = some v) (hv : v ≠ "")
    (hf : r.captureGroupsTy.fieldNames[j]? = some f) :
    ∃ out, r.Find s true values = some (true, out) ∧ out.vals[j]? = some v := by
  have hlt1 : i1 < subs.length := by
    by_contra hcon
    rw [List.getElem?_eq_none (Nat.le_of_not_lt hcon)] at h1
    exact Option.noConfusion h1
  have hlt2 : i2 < subs.length := by
    by_contra hcon
    rw [List.getElem?_eq_none (Nat.le_of_not_lt hcon)] at h2
    exact Option.noConfusion h2
  have hg1 : subs.getD i1 "" = "" := by
    rw [List.getD_eq_getElem?_getD, h1]
    rfl
  have hg2 : subs.getD i2 "" = v := by
    rw [List.getD_eq_getElem?_getD, h2]
    rfl
  have hres : findFirstNonEmptySubmatchForField r f subs = v := by
    rw [findFirstNonEmptySubmatchForField, hidx]
    simp only [firstNonEmptyAt, if_neg (Nat.not_le.mpr hlt1),
      if_neg (Nat.not_le.mpr hlt2)]
    rw [hg1, hg2]
    simp [hv]
  have hlen : ¬ subs.length = 0 := by omega
  refine ⟨⟨values.ty, assignSubmatchesToStruct r subs values.vals⟩, ?_, ?_⟩
  · simp [TypedRegexp.Find, hty, GoRegexp.findStringSubmatch, hm, hlen]
  · simp [assignSubmatchesToStruct, List.getElem?_map, hf, hres]

/-- Witness for C2: the two-branch matcher on input matching only the
second branch resolves Name to foo from the second branch group. -/
theorem find_resolves_from_participating_branch_witness :
    ∃ out, reqAB.Find "b foo" true ⟨tyName, ["preset"]⟩ = some (true, out) ∧
      out.vals[0]? = some "foo" :=
  find_resolves_from_participating_branch reqAB "b foo" "Name" 0 1 2
    ["b foo", "", "foo"] [] "foo" ⟨tyName, ["preset"]⟩ rfl rfl rfl rfl rfl
    (by decide) rfl

/-- C4: FindAll never reports more matches than the capacity of the output
slice, and when the input holds more matches than the capacity, exactly the
first capacity matches, in input order, are written into the slots.  Both
caller-provided slice forms are covered: a slice of structs and a slice of
pointers to structs (where a slot receives its match through the pointer
unless the caller left it nil). -/
theorem findAll_bounded_by_capacity (r : TypedRegexp) (s : String)
    (elems : List (List String)) (slots : List (Option (List String))) :
    (∃ n out,
      r.FindAll s (.ofStructs r.captureGroupsTy elems) =
          some (n, .ofStructs r.captureGroupsTy out) ∧
      n ≤ elems.length ∧
      (elems.length < (r.pattern.matchesOf s).length →
        n = elems.length ∧
        out = List.zipWith (fun subs e => assignSubmatchesToStruct r subs e)
          ((r.pattern.matchesOf s).take elems.length) elems)) ∧
    (∃ n out,
      r.FindAll s (.ofPtrs r.captureGroupsTy slots) =
          some (n, .ofPtrs r.captureGroupsTy out) ∧
      n ≤ slots.length ∧
      (slots.length < (r.pattern.matchesOf s).length →
        n = slots.length ∧
        out = List.zipWith
          (fun subs slot => slot.map (assignSubmatchesToStruct r subs))
          ((r.pattern.matchesOf s).take slots.length) slots)) := by
  constructor
  · by_cases h0 : elems.length = 0
    · have helems : elems = [] := List.length_eq_zero.mp h0
      subst helems
      refine ⟨0, [], ?_, le_refl 0, ?_⟩
      · simp [TypedRegexp.FindAll, SliceVal.elemTy, SliceVal.len]
      · intro _
        simp
    · refine ⟨((r.pattern.matchesOf s).take elems.length).length,
        fillStructs r ((r.pattern.matchesOf s).take elems.length) elems,
        ?_, ?_, ?_⟩
      · simp [TypedRegexp.FindAll, SliceVal.elemTy, SliceVal.len, h0,
          GoRegexp.findAllStringSubmatch]
      · rw [List.length_take]
        exact min_le_left _ _
      · intro hlt
        have hlen : ((r.pattern.matchesOf s).take elems.length).length =
            elems.length := by
          rw [List.length_take]
          exact min_eq_left (le_of_lt hlt)
        refine ⟨hlen, ?_⟩
        rw [fillStructs_eq, hlen, List.drop_length, List.append_nil]
  · by_cases h0 : slots.length = 0
    · have hslots : slots = [] := List.length_eq_zero.mp h0
      subst hslots
      refine ⟨0, [], ?_, le_refl 0, ?_⟩
      · simp [TypedRegexp.FindAll, SliceVal.elemTy, SliceVal.len]
      · intro _
        simp
    · refine ⟨((r.pattern.matchesOf s).take slots.length).length,
        fillPtrs r ((r.pattern.matchesOf s).take slots.length) slots,
        ?_, ?_, ?_⟩
      · simp [TypedRegexp.FindAll, SliceVal.elemTy, SliceVal.len, h0,
          GoRegexp.findAllStringSubmatch]
      · rw [List.length_take]
        exact min_le_left _ _
      · intro hlt
        have hlen : ((r.pattern.matchesOf s).take slots.length).length =
            slots.length := by
          rw [List.length_take]
          exact min_eq_left (le_of_lt hlt)
        refine ⟨hlen, ?_⟩
        rw [fillPtrs_eq, hlen, List.drop_length, List.append_nil]

/-- Witness for C4: the three-match input against two-slot output slices of
both forms yields count two and exactly the first two matches written in
order, into the struct slots and through the non-nil pointer slots. -/
theorem findAll_bounded_by_capacity_witness :
    (2 < (reqMulti.pattern.matchesOf "a foo b bar a baz extra").length) ∧
    ((∃ n out,
      reqMulti.FindAll "a foo b bar a baz extra"
          (.ofStructs reqMulti.captureGroupsTy [["x"], ["y"]]) =
        some (n, .ofStructs reqMulti.captureGroupsTy out) ∧
      n ≤ 2 ∧
      (2 < (reqMulti.pattern.matchesOf "a foo b bar a baz extra").length →
        n = 2 ∧
        out = List.zipWith
          (fun subs e => assignSubmatchesToStruct reqMulti subs e)
          ((reqMulti.pattern.matchesOf "a foo b bar a baz extra").take 2)
          [["x"], ["y"]])) ∧
    (∃ n out,
      reqMulti.FindAll "a foo b bar a baz extra"
          (.ofPtrs reqMulti.captureGroupsTy [some ["x"], some ["y"]]) =
        some (n, .ofPtrs reqMulti.captureGroupsTy out) ∧
      n ≤ 2 ∧
      (2 < (reqMulti.pattern.matchesOf "a foo b bar a baz extra").length →
        n = 2 ∧
        out = List.zipWith
          (fun subs slot => slot.map (assignSubmatchesToStruct reqMulti subs))
          ((reqMulti.pattern.matchesOf "a foo b bar a baz extra").take 2)
          [some ["x"], some ["y"]]))) :=
  ⟨by decide, findAll_bounded_by_capacity reqMulti "a foo b bar a baz extra"
    [["x"], ["y"]] [some ["x"], some ["y"]]⟩

/-- C5: in the pointer-slot form of FindAll, a slot the caller left nil is
never touched, and the match at that position in iteration order is
dropped; every non-nil slot at a position that has a match receives exactly
the match at its own position, so later matches keep filling later
slots. -/
theorem findAll_skips_nil_slots (r : TypedRegexp) (s : String)
    (slots : List (Option (List String))) :
    ∃ n out,
      r.FindAll s (.ofPtrs r.captureGroupsTy slots) =
          some (n, .ofPtrs r.captureGroupsTy out) ∧
      (∀ j, slots.get? j = some none → out.get? j = some none) ∧
      (∀ k subs v,
        ((r.pattern.matchesOf s).take slots.length).get? k = some subs →
        slots.get? k = some (some v) →
        out.get? k = some (some (assignSubmatchesToStruct r subs v))) := by
  by_cases h0 : slots.length = 0
  · have hslots : slots = [] := List.length_eq_zero.mp h0
    subst hslots
    refine ⟨0, [], ?_, ?_, ?_⟩
    · simp [TypedRegexp.FindAll, SliceVal.elemTy, SliceVal.len]
    · intro j hj
      simp at hj
    · intro k subs v hk _
      simp at hk
  · refine ⟨((r.pattern.matchesOf s).take slots.length).length,
      fillPtrs r ((r.pattern.matchesOf s).take slots.length) slots, ?_, ?_, ?_⟩
    · simp [TypedRegexp.FindAll, SliceVal.elemTy, SliceVal.len, h0,
        GoRegexp.findAllStringSubmatch]
    · intro j hj
      exact fillPtrs_get?_none r _ slots j hj
    · intro k subs v hk hsk
      exact fillPtrs_get?_some r _ slots k subs v hk hsk

/-- Witness for C5: with a nil first slot and a non-nil second slot, the
first match is dropped, the nil slot stays nil, and the second slot
receives the second match. -/
theorem findAll_skips_nil_slots_witness :
    ∃ n out,
      reqMulti.FindAll "a foo b bar a baz extra"
          (.ofPtrs reqMulti.captureGroupsTy [none, some ["p"]]) =
        some (n, .ofPtrs reqMulti.captureGroupsTy out) ∧
      (∀ j, [none, some ["p"]].get? j = some none → out.get? j = some none) ∧
      (∀ k subs v,
        ((reqMulti.pattern.matchesOf "a foo b bar a baz extra").take 2).get? k =
            some subs →
        [none, some ["p"]].get? k = some (some v) →
        out.get? k = some (some (assignSubmatchesToStruct reqMulti subs v))) :=
  findAll_skips_nil_slots reqMulti "a foo b bar a baz extra" [none, some ["p"]]

/-- C6: in a compiled matcher, the index lists are ascending, so when the
walk meets an index at or beyond the length of the submatch list of this
particular match, the resolved value is the same as if that out-of-bounds
index were not in the list at all: the code returns the empty string at
once, and every later index in the list is out of bounds as well. -/
theorem oob_index_treated_as_absent (e : RegexEngine)
    (tmpl : List TemplateItem) (cg : StructVal) (r : TypedRegexp)
    (f : String) (subs : List String) (i : Nat)
    (hok : Compile e tmpl cg = .ok r)
    (hi : i ∈ mapGet r.submatchIndicesByFieldName f)
    (hoob : subs.length ≤ i) :
    findFirstNonEmptySubmatchForField r f subs =
      firstNonEmptyAt ((mapGet r.submatchIndicesByFieldName f).erase i) subs := by
  obtain ⟨-, hidx⟩ := compile_fields e tmpl cg r hok
  have hchain : List.Chain' (· < ·) (mapGet r.submatchIndicesByFieldName f) := by
    rw [hidx, mapGet_buildIndices]
    by_cases hmem : f ∈ cg.ty.fieldNames
    · simp [hmem, chain'_posFrom]
    · simp [hmem]
  rw [findFirstNonEmptySubmatchForField]
  exact firstNonEmptyAt_erase subs _ hchain i hi hoob

/-- Witness for C6: in the compiled two-branch matcher the Name indices are
1 and 2; against a two-element submatch list the index 2 is out of bounds,
and the resolution agrees with the walk over the list with 2 removed. -/
theorem oob_index_treated_as_absent_witness :
    findFirstNonEmptySubmatchForField reqAB "Name" ["x", ""] =
      firstNonEmptyAt
        ((mapGet reqAB.submatchIndicesByFieldName "Name").erase 2) ["x", ""] :=
  oob_index_treated_as_absent engAB tmplAB cgAB reqAB "Name" ["x", ""] 2
    compileAB_ok (by decide) (by decide)

/-- C7: for a schema of unique field names with non-empty sub-patterns the
engine accepts standalone, and a template whose references are schema
fields and cover every field, Compile succeeds, its index map is exactly
the scan of the compiled pattern group names against the field names, and
every field owns at least one index, namely the ascending positions of its
group name.  The behaviour of the external engine on the composite is a
hypothesis, per its contract: the composite compiles and each field name is
among the reported group names, since every reference became a named
group. -/
theorem compile_indexes_every_referenced_field (e : RegexEngine)
    (tmpl : List TemplateItem) (cg : StructVal)
    (hlen : cg.ty.fieldNames.length ≤ cg.vals.length)
    (hnodup : cg.ty.fieldNames.Nodup)
    (hne : ∀ p ∈ cg.ty.fieldNames.zip cg.vals, p.2 ≠ "")
    (hvalid : ∀ p ∈ cg.ty.fieldNames.zip cg.vals, (e.compile p.2).isSome = true)
    (hrefs : ∀ f, TemplateItem.ref f ∈ tmpl → f ∈ cg.ty.fieldNames)
    (hcover : ∀ f ∈ cg.ty.fieldNames, TemplateItem.ref f ∈ tmpl)
    (hcomp : ∀ pat,
      fillPatternTemplate tmpl
          ((cg.ty.fieldNames.zip cg.vals).map (fun p => (p.1, wrapPat p.1 p.2))) =
        .ok pat →
      ∃ re, e.compile pat = some re ∧
        ∀ f ∈ cg.ty.fieldNames, f ∈ re.subexpNames) :
    ∃ r, Compile e tmpl cg = .ok r ∧
      r.submatchIndicesByFieldName =
        buildIndices r.pattern.subexpNames cg.ty.fieldNames ∧
      ∀ f ∈ cg.ty.fieldNames,
        mapGet r.submatchIndicesByFieldName f =
            posFrom f 0 r.pattern.subexpNames ∧
        mapGet r.submatchIndicesByFieldName f ≠ [] := by
  have hwrap := wrapFields_ok e (cg.ty.fieldNames.zip cg.vals) hne hvalid
  have hkeys : ∀ f, TemplateItem.ref f ∈ tmpl →
      ∃ p ∈ (cg.ty.fieldNames.zip cg.vals).map (fun p => (p.1, wrapPat p.1 p.2)),
        p.1 = f := by
    intro f hf
    have hmem : f ∈ cg.ty.fieldNames := hrefs f hf
    rw [← List.map_fst_zip cg.ty.fieldNames cg.vals hlen] at hmem
    obtain ⟨p, hp, hpf⟩ := List.mem_map.mp hmem
    exact ⟨(p.1, wrapPat p.1 p.2), List.mem_map.mpr ⟨p, hp, rfl⟩, hpf⟩
  obtain ⟨pat, hfill⟩ := fillPatternTemplate_ok tmpl _ hkeys
  obtain ⟨re, hre, hcov⟩ := hcomp pat hfill
  refine ⟨{ pattern := re
            captureGroupsTy := cg.ty
            captureGroups := ((cg.ty.fieldNames.zip cg.vals).map
              (fun p => (p.1, wrapPat p.1 p.2))).map (fun p => p.2)
            submatchIndicesByFieldName :=
              buildIndices re.subexpNames cg.ty.fieldNames }, ?_, rfl, ?_⟩
  · simp only [Compile, hwrap, hfill, hre]
  · intro f hmem
    constructor
    · show mapGet (buildIndices re.subexpNames cg.ty.fieldNames) f =
        posFrom f 0 re.subexpNames
      rw [mapGet_buildIndices]
      simp [hmem]
    · show mapGet (buildIndices re.subexpNames cg.ty.fieldNames) f ≠ []
      rw [mapGet_buildIndices]
      simp only [hmem, if_true, if_pos]
      exact posFrom_ne_nil_of_mem f re.subexpNames 0 (hcov f hmem)

/-- Witness for C7: the two-branch scenario satisfies every hypothesis and
yields the matcher whose Name indices are the positions 1 and 2. -/
theorem compile_indexes_every_referenced_field_witness :
    ∃ r, Compile engAB tmplAB cgAB = .ok r ∧
      r.submatchIndicesByFieldName =
        buildIndices r.pattern.subexpNames cgAB.ty.fieldNames ∧
      ∀ f ∈ cgAB.ty.fieldNames,
        mapGet r.submatchIndicesByFieldName f =
            posFrom f 0 r.pattern.subexpNames ∧
        mapGet r.submatchIndicesByFieldName f ≠ [] :=
  compile_indexes_every_referenced_field engAB tmplAB cgAB (by decide)
    (by decide) (by decide) (by decide)
    (by
      intro f hf
      simp [tmplAB] at hf
      simp [cgAB, tyName, hf])
    (by decide)
    (by
      intro pat hp
      rw [show fillPatternTemplate tmplAB
          ((cgAB.ty.fieldNames.zip cgAB.vals).map
            (fun p => (p.1, wrapPat p.1 p.2))) =
          .ok "a (?P<Name>\\w+)|b (?P<Name>\\w+)" from rfl] at hp
      injection hp with hp
      subst hp
      exact ⟨reAB, rfl, by decide⟩)

/-- C8: processing the schema in field-declaration order, with every
earlier field non-empty and accepted by the engine, a field with an empty
sub-pattern makes Compile fail with the empty-field error naming it, and a
non-empty sub-pattern the engine rejects makes Compile fail with the
invalid-pattern error naming it.  The engine hypotheses mention only the
field sub-patterns, never the composite, so the failure happens for every
possible behaviour of the engine on the composite: no composite compilation
is consulted, and no matcher is returned. -/
theorem compile_rejects_empty_and_invalid_field_in_order (e : RegexEngine)
    (tmpl : List TemplateItem) (cg : StructVal)
    (pre post : List (String × String)) (name pat : String)
    (hsplit : cg.ty.fieldNames.zip cg.vals = pre ++ (name, pat) :: post)
    (hpre : ∀ p ∈ pre, p.2 ≠ "" ∧ (e.compile p.2).isSome = true) :
    (pat = "" → Compile e tmpl cg = .error (.emptyField name)) ∧
    (pat ≠ "" → e.compile pat = none →
      Compile e tmpl cg = .error (.invalidFieldPattern name)) := by
  constructor
  · intro hp
    have herr := (wrapFields_error_at e pre name pat post hpre).1 hp
    unfold Compile
    rw [hsplit, herr]
  · intro hp hnone
    have herr := (wrapFields_error_at e pre name pat post hpre).2 hnone hp
    unfold Compile
    rw [hsplit, herr]

/-- Witness for C8: with an engine that accepts the first field sub-pattern
x, a schema whose second field B is empty fails naming B with the
empty-field error, and a schema whose second field B holds an unbalanced
parenthesis the engine rejects fails naming B with the invalid-pattern
error. -/
theorem compile_rejects_empty_and_invalid_field_in_order_witness :
    Compile engX [] cgEmptyB = .error (.emptyField "B") ∧
    Compile engX [] cgInvalidB = .error (.invalidFieldPattern "B") :=
  ⟨(compile_rejects_empty_and_invalid_field_in_order engX [] cgEmptyB
      [("A", "x")] [] "B" "" rfl (by decide)).1 rfl,
    (compile_rejects_empty_and_invalid_field_in_order engX [] cgInvalidB
      [("A", "x")] [] "B" "(" rfl (by decide)).2 (by decide) rfl⟩

end Typedregexp
